import Mathlib

/-!
Verification of the awair repository's core logic, shallowly embedded from
`src/awair/storage.py` (class `ParquetStorage`) and `src/awair/cli/raw.py`
(`fetch_raw_data`, `fetch_date_range`).

Modelling conventions:
* timestamps are `Int` (a naive datetime at second resolution; `timedelta`
  amounts become 1, 60, 3600 seconds);
* sensor values are `Int`;
* a pandas DataFrame of readings is a `List Row` in row order;
* the backing parquet file is `Option (List Row)` (`none` = absent/unreadable);
* python exceptions are explicit: `ValueError` from a data conflict is the
  payload `(timestamp, mismatched field names)`;
* stderr narration (`err`, warning prints) is captured as returned
  warning lists / event traces.
-/

namespace Awair

/-- One flat reading row: the canonical field set
`[timestamp, temp, co2, pm10, pm25, humid, voc]` (`FIELDS` in storage.py). -/
structure Row where
  timestamp : Int
  temp : Int
  co2 : Int
  pm10 : Int
  pm25 : Int
  humid : Int
  voc : Int
deriving DecidableEq, Repr

/-- `VAL_FIELDS` from storage.py: the non-timestamp columns, in order. -/
def valFieldNames : List String := ["temp", "co2", "pm10", "pm25", "humid", "voc"]

/-- `FIELDS = ['timestamp'] + VAL_FIELDS`: the full canonical field set. -/
def FIELDS : List String := "timestamp" :: valFieldNames

/-- Column access by name, for the conflict-field comparison loop. -/
def valField (name : String) (r : Row) : Int :=
  if name = "temp" then r.temp
  else if name = "co2" then r.co2
  else if name = "pm10" then r.pm10
  else if name = "pm25" then r.pm25
  else if name = "humid" then r.humid
  else if name = "voc" then r.voc
  else 0

/-- Generic first-occurrence deduplication (pandas `drop_duplicates()` over
whole rows, and `.unique()` over values): keep an element iff it was not
seen earlier. -/
def dedupAux {α : Type} [DecidableEq α] (seen : List α) : List α → List α
  | [] => []
  | a :: as => if a ∈ seen then dedupAux seen as else a :: dedupAux (a :: seen) as

/-- `xs.drop_duplicates()` / `xs.unique()`: distinct elements, first
occurrences kept, order preserved. -/
def dedupL {α : Type} [DecidableEq α] (l : List α) : List α := dedupAux [] l

/-- `drop_duplicates(subset=['timestamp'], keep='first')` with an explicit
seen-set: keep a row iff its timestamp was not seen earlier. -/
def dedupFirstAux (seen : List Int) : List Row → List Row
  | [] => []
  | r :: rs =>
    if r.timestamp ∈ seen then dedupFirstAux seen rs
    else r :: dedupFirstAux (r.timestamp :: seen) rs

/-- `combined_df.drop_duplicates(subset=['timestamp'], keep='first')`. -/
def dedupFirst (rows : List Row) : List Row := dedupFirstAux [] rows

/-- `combined_df.drop_duplicates(subset=['timestamp'], keep='last')`: keep a
row iff no later row carries the same timestamp. -/
def dedupLast : List Row → List Row
  | [] => []
  | r :: rs =>
    if ∃ s ∈ rs, s.timestamp = r.timestamp then dedupLast rs else r :: dedupLast rs

/-- `combined_df[combined_df['timestamp'] == t]`: the group of rows at one
timestamp, in row order. -/
def groupAt (rows : List Row) (t : Int) : List Row :=
  rows.filter (fun r => r.timestamp = t)

/-- The `conflicts` list computed per collision group: the `VAL_FIELDS`
names whose values disagree across the group's distinct rows. -/
def mismatchedFields (uniqueRows : List Row) : List String :=
  valFieldNames.filter (fun n => 1 < (dedupL (uniqueRows.map (valField n))).length)

/-- `a.timestamp <= b.timestamp`: the sort key used by
`sort_values('timestamp')`. -/
def tsLE (a b : Row) : Prop := a.timestamp ≤ b.timestamp

instance : DecidableRel tsLE := fun a b =>
  inferInstanceAs (Decidable (a.timestamp ≤ b.timestamp))

instance : IsTotal Row tsLE := ⟨fun a b => Int.le_total a.timestamp b.timestamp⟩

instance : IsTrans Row tsLE := ⟨fun _ _ _ h h2 => le_trans h h2⟩

/-- `final_df = self._batch_df.sort_values('timestamp')`. -/
def sortByTimestamp (rows : List Row) : List Row := List.insertionSort tsLE rows

/-- Ascending sort of timestamps (pandas `groupby` iterates groups in sorted
key order). -/
def sortInts (l : List Int) : List Int := List.insertionSort (· ≤ ·) l

/-- The distinct timestamps of `combined`, ascending. -/
def sortedTimestamps (rows : List Row) : List Int :=
  sortInts (dedupL (rows.map Row.timestamp))

/-- One iteration of the conflict-detection loop body for the group at
timestamp `t`: `some (t, fields)` iff the group is a genuine conflict
(at least two rows share `t`, more than one distinct row among them, and a
nonempty list of disagreeing `VAL_FIELDS`). -/
def conflictEntry (combined : List Row) (t : Int) : Option (Int × List String) :=
  let g := groupAt combined t
  if 2 ≤ g.length then
    let uniqueRows := dedupL g
    if 1 < uniqueRows.length then
      let fs := mismatchedFields uniqueRows
      if fs = [] then none else some (t, fs)
    else none
  else none

/-- All genuine conflicts of `combined`, in ascending timestamp order
(the order the python `groupby` loop visits them). -/
def conflictGroups (combined : List Row) : List (Int × List String) :=
  (sortedTimestamps combined).filterMap (conflictEntry combined)

/-- `conflict_action`: `warn` (default) | `error` | `replace`. -/
inductive ConflictAction
  | warn
  | error
  | replace
deriving DecidableEq, Repr

/-- The mutable fields of a `ParquetStorage` object:
`_batch_df` (`none` outside a session) and `_dirty`. -/
structure StoreState where
  batch : Option (List Row)
  dirty : Bool
deriving DecidableEq, Repr

instance {ε α : Type} [DecidableEq ε] [DecidableEq α] : DecidableEq (Except ε α) := fun x y =>
  match x, y with
  | .ok a, .ok b =>
    if h : a = b then .isTrue (by rw [h]) else .isFalse (by intro hc; cases hc; exact h rfl)
  | .error a, .error b =>
    if h : a = b then .isTrue (by rw [h]) else .isFalse (by intro hc; cases hc; exact h rfl)
  | .ok _, .error _ => .isFalse (by intro hc; cases hc)
  | .error _, .ok _ => .isFalse (by intro hc; cases hc)

/-- Result of one `insert_air_data` call: the object state after the call
(unchanged when the call raised), the python return value or the raised
`ValueError` payload, and the warnings printed to stderr. -/
structure InsertOutcome where
  state : StoreState
  result : Except (Int × List String) Nat
  warnings : List (Int × List String)
deriving DecidableEq, Repr

/-- `ParquetStorage.insert_air_data` (storage.py lines 48-102), translated
line by line.  The `error` action raises at the first conflicting group,
before `_batch_df` or `_dirty` is assigned. -/
def insert_air_data (action : ConflictAction) (st : StoreState) (data : List Row) :
    InsertOutcome :=
  match st.batch with
  | none => ⟨st, .ok 0, []⟩
  | some buf =>
    if data = [] then ⟨st, .ok 0, []⟩
    else
      let combined := buf ++ data
      let cgs := conflictGroups combined
      match action, cgs with
      | .error, c :: _ => ⟨st, .error c, []⟩
      | _, _ =>
        let warnings := if action = .warn then cgs else []
        let newBuf :=
          if ¬ cgs = [] ∧ action = .replace then dedupLast combined
          else dedupFirst combined
        let inserted : Int := (newBuf.length : Int) - (buf.length : Int)
        let newDirty := if 0 < inserted then true else st.dirty
        ⟨⟨some newBuf, newDirty⟩, .ok (max 0 inserted).toNat, warnings⟩

/-- `ParquetStorage.__enter__`: load the backing file into the staging
buffer (absent file → empty), clear the dirty flag. -/
def enterSession (file : Option (List Row)) : StoreState :=
  ⟨some (file.getD []), false⟩

/-- `ParquetStorage.__exit__` (storage.py lines 35-46).  `excType` models the
`exc_type` argument; the source body never reads it: data is written
whenever the session is dirty, on normal and exceptional exit alike.
Returns the backing file after exit and the reset object state. -/
def exitSession (file : Option (List Row)) (st : StoreState) (excType : Bool) :
    Option (List Row) × StoreState :=
  match st.batch with
  | some buf =>
    if st.dirty then (some (sortByTimestamp buf), ⟨none, false⟩)
    else (file, ⟨none, false⟩)
  | none => (file, ⟨none, false⟩)

/-- `ParquetStorage.get_record_count`. -/
def get_record_count (file : Option (List Row)) (st : StoreState) : Nat :=
  match st.batch with
  | some buf => buf.length
  | none => (file.getD []).length

/-- Run a sequence of `insert_air_data` calls, threading the object state
(on a raise the state is the state at the raise, i.e. unchanged). -/
def runInserts (action : ConflictAction) (st : StoreState) :
    List (List Row) → StoreState
  | [] => st
  | data :: rest => runInserts action (insert_air_data action st data).state rest

/-- `df['timestamp'].min()` of a nonempty frame (defaulting to 0, unused on
empty input). -/
def minTimestamp (rows : List Row) : Int := ((rows.map Row.timestamp).min?).getD 0

/-- `df['timestamp'].max()`. -/
def maxTimestamp (rows : List Row) : Int := ((rows.map Row.timestamp).max?).getD 0

/-- The value returned by `ParquetStorage.get_data_summary`:
`{count, earliest, latest, file_size_mb}`. -/
structure Summary where
  count : Nat
  earliest : Option Int
  latest : Option Int
  file_size_mb : ℚ
deriving DecidableEq, Repr

/-- `ParquetStorage._get_file_size` (local-path branch): the backing
medium's byte size divided by 1024*1024, or 0 when the path does not exist.
`fsBytes` is the size reported by the storage medium (filesystem `getsize`
or S3 `ContentLength`); `none` = absent. -/
def get_file_size (fsBytes : Option Nat) : ℚ :=
  match fsBytes with
  | some b => (b : ℚ) / (1024 * 1024)
  | none => 0

/-- `ParquetStorage.get_data_summary` (storage.py lines 134-168).
`file` is the parsed backing file (`none` = read raises, treated as empty),
`fsBytes` the medium-reported byte size, `st` the object state. -/
def get_data_summary (file : Option (List Row)) (fsBytes : Option Nat)
    (st : StoreState) : Summary :=
  match st.batch with
  | some buf =>
    if buf = [] then ⟨0, none, none, 0⟩
    else ⟨buf.length, some (minTimestamp buf), some (maxTimestamp buf), get_file_size fsBytes⟩
  | none =>
    match file with
    | some rows =>
      let sz := get_file_size fsBytes
      if rows = [] then ⟨0, none, none, sz⟩
      else ⟨rows.length, some (minTimestamp rows), some (maxTimestamp rows), sz⟩
    | none => ⟨0, none, none, 0⟩

/-! ### The backfill loop, from `fetch_date_range` in cli/raw.py -/

/-- Outcome of one `fetch_raw_data` call, as consumed by the loop: HTTP 429,
another HTTP error, or a successful page of normalized rows. -/
inductive FetchResp
  | rateLimit
  | httpError
  | page (rows : List Row)

/-- One stderr-visible loop event: rate-limit stop, transient HTTP error
retreat, a successful page (row count and rows newly inserted in the sink),
or an empty page. -/
inductive Ev
  | rl429
  | httpErr
  | pageEv (count inserted : Nat)
  | emptyPage
deriving DecidableEq, Repr

/-- Why the loop stopped: the window end reached `from`, an empty page,
a rate limit, or an exception propagating out of `insert_air_data`. -/
inductive RangeOutcome
  | reachedStart
  | noMoreData
  | rateLimited
  | raised (e : Int × List String)
deriving DecidableEq, Repr

/-- Final accounting of a `fetch_date_range` run: the local variables
`total_inserted`, `total_requests`, `current_end` at loop exit, the sink
state, the event trace, and the stop cause. -/
structure RangeResult where
  totalInserted : Nat
  totalRequests : Nat
  currentEnd : Int
  sink : Option StoreState
  trace : List Ev
  outcome : RangeOutcome
deriving Repr

/-- The two-line window-end update after a successful, nonempty page
(cli/raw.py lines 147-155): step back one minute when the oldest returned
timestamp made no progress, else one second before the oldest timestamp. -/
def nextWindowEnd (rows : List Row) (currentEnd : Int) : Int :=
  if currentEnd ≤ minTimestamp rows then currentEnd - 60 else minTimestamp rows - 1

/-- The `while current_end > start_date` loop of `fetch_date_range`
(cli/raw.py lines 110-157).  `oracle n` is the endpoint's answer to the
`n`-th request (`n` = `total_requests` before the increment).  A `sink` of
`none` is the stdout pass-through mode. -/
def fetchLoop (action : ConflictAction) (oracle : Nat → FetchResp) (startDate : Int)
    (totalInserted totalRequests : Nat) (currentEnd : Int) (sink : Option StoreState)
    (trace : List Ev) : RangeResult :=
  if h : startDate < currentEnd then
    match oracle totalRequests with
    | .rateLimit =>
      ⟨totalInserted, totalRequests + 1, currentEnd, sink, trace ++ [.rl429], .rateLimited⟩
    | .httpError =>
      fetchLoop action oracle startDate totalInserted (totalRequests + 1)
        (currentEnd - 3600) sink (trace ++ [.httpErr])
    | .page rows =>
      match sink with
      | some st =>
        if rows = [] then
          ⟨totalInserted, totalRequests + 1, currentEnd, sink, trace ++ [.emptyPage],
            .noMoreData⟩
        else
          let o := insert_air_data action st rows
          match o.result with
          | .error e =>
            ⟨totalInserted, totalRequests + 1, currentEnd, some o.state, trace, .raised e⟩
          | .ok ins =>
            fetchLoop action oracle startDate (totalInserted + ins) (totalRequests + 1)
              (nextWindowEnd rows currentEnd) (some o.state)
              (trace ++ [.pageEv rows.length ins])
      | none =>
        if rows = [] then
          ⟨totalInserted, totalRequests + 1, currentEnd, none, trace ++ [.emptyPage],
            .noMoreData⟩
        else
          fetchLoop action oracle startDate totalInserted (totalRequests + 1)
            (nextWindowEnd rows currentEnd) none (trace ++ [.pageEv rows.length 0])
  else
    ⟨totalInserted, totalRequests, currentEnd, sink, trace, .reachedStart⟩
termination_by (currentEnd - startDate).toNat
decreasing_by
  · omega
  · simp only [nextWindowEnd]
    split <;> omega
  · simp only [nextWindowEnd]
    split <;> omega

/-- `fetch_date_range` (cli/raw.py lines 92-163): parse the endpoints, run
the loop from `current_end = end_date`, then log the final narration.  The
second component is the python function's return value: the source has no
`return` statement, so the call returns `None`. -/
def fetch_date_range (action : ConflictAction) (oracle : Nat → FetchResp)
    (startDate endDate : Int) (sink : Option StoreState) : RangeResult × Option Nat :=
  (fetchLoop action oracle startDate 0 0 endDate sink [], none)

/-! ### Row normalization, from `fetch_raw_data` in cli/raw.py -/

/-- One element of a payload record's `sensors` array. -/
structure SensorReading where
  comp : String
  value : Int
deriving DecidableEq, Repr

/-- One record of the endpoint payload's `data` array. -/
structure Datum where
  timestamp : Int
  sensors : List SensorReading
deriving DecidableEq, Repr

/-- Looking up component `k` in the dict built by
`for s in sensors: row[s['comp']] = s['value']` — later entries for the
same component overwrite earlier ones. -/
def lookupComp (sensors : List SensorReading) (k : String) : Option Int :=
  (sensors.reverse.find? (fun s => s.comp = k)).map SensorReading.value

/-- The per-record pivot of `fetch_raw_data` (cli/raw.py lines 52-61):
`row = {'timestamp': datum['timestamp']}` seeds the dict, then every sensor
executes `row[comp] = value` — including a sensor whose `comp` is
`'timestamp'`, which overwrites the seeded timestamp — and finally
`{k: row[k] for k in FIELDS}` selects exactly the canonical fields,
raising `KeyError` when one is absent.  The `'timestamp'` key is always
present (seeded), so only the six value fields can raise. -/
def normalizeDatum (d : Datum) : Except String Row :=
  let ts := (lookupComp d.sensors "timestamp").getD d.timestamp
  match lookupComp d.sensors "temp", lookupComp d.sensors "co2",
      lookupComp d.sensors "pm10", lookupComp d.sensors "pm25",
      lookupComp d.sensors "humid", lookupComp d.sensors "voc" with
  | some temp, some co2, some pm10, some pm25, some humid, some voc =>
    .ok ⟨ts, temp, co2, pm10, pm25, humid, voc⟩
  | _, _, _, _, _, _ => .error "KeyError"

/-! ### Derived predicates -/

/-- The timestamps of `rows`, in row order. -/
def tsOf (rows : List Row) : List Int := rows.map Row.timestamp

/-- No two rows of the list share a timestamp. -/
def tsNodup (rows : List Row) : Prop := (tsOf rows).Nodup

/-- Two rows of the list share a timestamp but are not identical — the
situation `insert_air_data` treats as a genuine data conflict. -/
def conflictProp (rows : List Row) : Prop :=
  ∃ r ∈ rows, ∃ s ∈ rows, r.timestamp = s.timestamp ∧ r ≠ s

/-- The backing file is well formed: absent, or sorted by timestamp with
no duplicate timestamps (the spec's Store invariant). -/
def wellFormedFile : Option (List Row) → Prop
  | none => True
  | some rows => List.Sorted tsLE rows ∧ tsNodup rows

/-- Sum of the per-page inserted counts over an event trace. -/
def pageInsertedSum (tr : List Ev) : Nat :=
  (tr.map fun e => match e with | .pageEv _ i => i | _ => 0).sum

/-- Sample readings for concrete evaluations. -/
def rowA : Row := ⟨50, 70, 400, 5, 3, 40, 100⟩

/-- Same timestamp as `rowA`, different temperature. -/
def rowB : Row := ⟨50, 71, 400, 5, 3, 40, 100⟩

/-- A reading at an earlier timestamp. -/
def rowC : Row := ⟨10, 60, 500, 6, 4, 41, 101⟩

/-- A simulated endpoint: one page of data, then exhaustion. -/
def oraclePageThenEmpty : Nat → FetchResp :=
  fun n => if n = 0 then .page [rowA] else .page []

/-- A simulated endpoint: one page of data, then HTTP 429 on the second call. -/
def oraclePageThenLimit : Nat → FetchResp :=
  fun n => if n = 0 then .page [rowA] else .rateLimit

/-- A complete sensor array covering the canonical components. -/
def sensorsA : List SensorReading :=
  [⟨"temp", 70⟩, ⟨"co2", 400⟩, ⟨"pm10", 5⟩, ⟨"pm25", 3⟩, ⟨"humid", 40⟩, ⟨"voc", 100⟩]

/-- A payload record with a complete sensor array. -/
def datumA : Datum := ⟨50, sensorsA⟩

/-- A sensor component outside the canonical field set. -/
def extraSensor : SensorReading := ⟨"score", 99⟩

theorem nextWindowEnd_lt (rows : List Row) (currentEnd : Int) :
    nextWindowEnd rows currentEnd < currentEnd := by
  unfold nextWindowEnd
  split <;> omega

/-! ## Lemmas about deduplication -/

theorem mem_dedupAux {α : Type} [DecidableEq α] {a : α} :
    ∀ (seen l : List α), a ∈ dedupAux seen l ↔ a ∈ l ∧ a ∉ seen := by
  intro seen l
  induction l generalizing seen with
  | nil => simp [dedupAux]
  | cons b bs ih =>
    by_cases hb : b ∈ seen
    · simp only [dedupAux, if_pos hb, ih, List.mem_cons]
      constructor
      · rintro ⟨h1, h2⟩
        exact ⟨Or.inr h1, h2⟩
      · rintro ⟨h1 | h1, h2⟩
        · exact absurd (h1 ▸ hb) h2
        · exact ⟨h1, h2⟩
    · simp only [dedupAux, if_neg hb, List.mem_cons, ih]
      by_cases hab : a = b
      · subst hab; simp [hb]
      · simp [hab]

theorem mem_dedupL {α : Type} [DecidableEq α] {a : α} (l : List α) :
    a ∈ dedupL l ↔ a ∈ l := by
  simp [dedupL, mem_dedupAux]

theorem nodup_dedupAux {α : Type} [DecidableEq α] :
    ∀ (seen l : List α), (dedupAux seen l).Nodup := by
  intro seen l
  induction l generalizing seen with
  | nil => simp [dedupAux]
  | cons b bs ih =>
    by_cases hb : b ∈ seen
    · simpa [dedupAux, if_pos hb] using ih seen
    · simp only [dedupAux, if_neg hb, List.nodup_cons]
      refine ⟨fun hc => ?_, ih (b :: seen)⟩
      exact ((mem_dedupAux (b :: seen) bs).1 hc).2 (List.mem_cons_self b seen)

theorem nodup_dedupL {α : Type} [DecidableEq α] (l : List α) : (dedupL l).Nodup :=
  nodup_dedupAux [] l

theorem two_mem_length {α : Type} {a b : α} {l : List α}
    (ha : a ∈ l) (hb : b ∈ l) (hab : a ≠ b) : 1 < l.length := by
  match l with
  | [] => simp at ha
  | [c] =>
    simp only [List.mem_singleton] at ha hb
    exact absurd (ha.trans hb.symm) hab
  | _ :: _ :: _ => simp

theorem nodup_two_of_one_lt {α : Type} {l : List α}
    (hn : l.Nodup) (hl : 1 < l.length) : ∃ a ∈ l, ∃ b ∈ l, a ≠ b := by
  match l with
  | [] => simp at hl
  | [c] => simp at hl
  | a :: b :: rest =>
    refine ⟨a, List.mem_cons_self _ _, b, List.mem_cons_of_mem _ (List.mem_cons_self _ _), ?_⟩
    simp only [List.nodup_cons, List.mem_cons] at hn
    exact fun hc => hn.1 (Or.inl hc)

theorem one_lt_length_dedupL {α : Type} [DecidableEq α] (l : List α) :
    1 < (dedupL l).length ↔ ∃ a ∈ l, ∃ b ∈ l, a ≠ b := by
  constructor
  · intro h
    obtain ⟨a, ha, b, hb, hab⟩ := nodup_two_of_one_lt (nodup_dedupL l) h
    exact ⟨a, (mem_dedupL l).1 ha, b, (mem_dedupL l).1 hb, hab⟩
  · rintro ⟨a, ha, b, hb, hab⟩
    exact two_mem_length ((mem_dedupL l).2 ha) ((mem_dedupL l).2 hb) hab

theorem tsOf_cons (r : Row) (rs : List Row) :
    tsOf (r :: rs) = r.timestamp :: tsOf rs := rfl

theorem mem_tsOf {t : Int} {l : List Row} :
    t ∈ tsOf l ↔ ∃ r ∈ l, r.timestamp = t := by
  simp [tsOf]

theorem mem_ts_dedupFirstAux {t : Int} :
    ∀ (seen : List Int) (l : List Row),
      t ∈ tsOf (dedupFirstAux seen l) ↔ t ∈ tsOf l ∧ t ∉ seen := by
  intro seen l
  induction l generalizing seen with
  | nil => simp [dedupFirstAux, tsOf]
  | cons r rs ih =>
    by_cases hr : r.timestamp ∈ seen
    · rw [dedupFirstAux, if_pos hr, ih, tsOf_cons]
      constructor
      · rintro ⟨h1, h2⟩
        exact ⟨List.mem_cons_of_mem _ h1, h2⟩
      · rintro ⟨h1, h2⟩
        rcases List.mem_cons.1 h1 with rfl | h1
        · exact absurd hr h2
        · exact ⟨h1, h2⟩
    · rw [dedupFirstAux, if_neg hr, tsOf_cons, tsOf_cons]
      constructor
      · intro h
        rcases List.mem_cons.1 h with rfl | h
        · exact ⟨List.mem_cons_self _ _, hr⟩
        · obtain ⟨h1, h2⟩ := (ih _).1 h
          exact ⟨List.mem_cons_of_mem _ h1,
            fun hc => h2 (List.mem_cons_of_mem _ hc)⟩
      · rintro ⟨h1, h2⟩
        rcases List.mem_cons.1 h1 with rfl | h1
        · exact List.mem_cons_self _ _
        · by_cases ht : t = r.timestamp
          · exact ht ▸ List.mem_cons_self _ _
          · refine List.mem_cons_of_mem _ ((ih _).2 ⟨h1, ?_⟩)
            intro hc
            rcases List.mem_cons.1 hc with h | h
            · exact ht h
            · exact h2 h

theorem subset_dedupFirstAux {r : Row} :
    ∀ (seen : List Int) (l : List Row), r ∈ dedupFirstAux seen l → r ∈ l := by
  intro seen l
  induction l generalizing seen with
  | nil => simp [dedupFirstAux]
  | cons x xs ih =>
    by_cases hx : x.timestamp ∈ seen
    · rw [dedupFirstAux, if_pos hx]
      exact fun h => List.mem_cons_of_mem _ (ih _ h)
    · rw [dedupFirstAux, if_neg hx]
      intro h
      rcases List.mem_cons.1 h with rfl | h
      · exact List.mem_cons_self _ _
      · exact List.mem_cons_of_mem _ (ih _ h)

theorem tsNodup_dedupFirstAux : ∀ (seen : List Int) (l : List Row),
    (tsOf (dedupFirstAux seen l)).Nodup := by
  intro seen l
  induction l generalizing seen with
  | nil => simp [dedupFirstAux, tsOf]
  | cons r rs ih =>
    by_cases hr : r.timestamp ∈ seen
    · rw [dedupFirstAux, if_pos hr]
      exact ih seen
    · rw [dedupFirstAux, if_neg hr, tsOf_cons]
      refine List.nodup_cons.2 ⟨fun hc => ?_, ih _⟩
      exact ((mem_ts_dedupFirstAux _ _).1 hc).2 (List.mem_cons_self _ _)

theorem mem_ts_dedupFirst {t : Int} (l : List Row) :
    t ∈ tsOf (dedupFirst l) ↔ t ∈ tsOf l := by
  simp [dedupFirst, mem_ts_dedupFirstAux]

theorem tsNodup_dedupFirst (l : List Row) : tsNodup (dedupFirst l) :=
  tsNodup_dedupFirstAux [] l

theorem subset_dedupFirst {r : Row} (l : List Row) (h : r ∈ dedupFirst l) : r ∈ l :=
  subset_dedupFirstAux [] l h

theorem dedupFirstAux_eq_nil : ∀ (seen : List Int) (l : List Row),
    (∀ r ∈ l, r.timestamp ∈ seen) → dedupFirstAux seen l = [] := by
  intro seen l
  induction l generalizing seen with
  | nil => simp [dedupFirstAux]
  | cons r rs ih =>
    intro h
    have hr : r.timestamp ∈ seen := h r (List.mem_cons_self _ _)
    simp only [dedupFirstAux, if_pos hr]
    exact ih seen (fun x hx => h x (List.mem_cons_of_mem _ hx))

theorem dedupFirstAux_absorb : ∀ (ys : List Row) (seen : List Int) (xs : List Row),
    tsNodup ys → (∀ t ∈ tsOf ys, t ∉ seen) →
    (∀ t ∈ tsOf xs, t ∈ tsOf ys ∨ t ∈ seen) →
    dedupFirstAux seen (ys ++ xs) = ys := by
  intro ys
  induction ys with
  | nil =>
    intro seen xs _ _ hsub
    refine dedupFirstAux_eq_nil seen xs (fun r hr => ?_)
    rcases hsub r.timestamp (List.mem_map_of_mem Row.timestamp hr) with h | h
    · simp [tsOf] at h
    · exact h
  | cons y ys ih =>
    intro seen xs hnd hdisj hsub
    have hy : y.timestamp ∉ seen := hdisj _ (by simp [tsOf])
    simp only [List.cons_append, dedupFirstAux, if_neg hy]
    have hnd' : tsNodup ys := (List.nodup_cons.1 hnd).2
    have hynotin : y.timestamp ∉ tsOf ys := (List.nodup_cons.1 hnd).1
    congr 1
    refine ih (y.timestamp :: seen) xs hnd' ?_ ?_
    · intro t ht
      simp only [List.mem_cons]
      rintro (rfl | hc)
      · exact hynotin ht
      · exact hdisj t (by simp [tsOf] at ht ⊢; exact Or.inr ht) hc
    · intro t ht
      rcases hsub t ht with h | h
      · simp only [tsOf, List.map_cons, List.mem_cons] at h
        rcases h with rfl | h
        · exact Or.inr (List.mem_cons_self _ _)
        · exact Or.inl h
      · exact Or.inr (List.mem_cons_of_mem _ h)

theorem dedupFirst_absorb {ys xs : List Row} (hnd : tsNodup ys)
    (hsub : ∀ t ∈ tsOf xs, t ∈ tsOf ys) : dedupFirst (ys ++ xs) = ys :=
  dedupFirstAux_absorb ys [] xs hnd (by simp) (fun t ht => Or.inl (hsub t ht))

theorem dedupFirst_self_append (xs : List Row) :
    dedupFirst (dedupFirst xs ++ xs) = dedupFirst xs :=
  dedupFirst_absorb (tsNodup_dedupFirst xs)
    (fun t ht => (mem_ts_dedupFirst xs).2 ht)

theorem dedupLast_cons_pos {x : Row} {xs : List Row}
    (h : ∃ s ∈ xs, s.timestamp = x.timestamp) :
    dedupLast (x :: xs) = dedupLast xs := by
  rw [dedupLast, if_pos h]

theorem dedupLast_cons_neg {x : Row} {xs : List Row}
    (h : ¬ ∃ s ∈ xs, s.timestamp = x.timestamp) :
    dedupLast (x :: xs) = x :: dedupLast xs := by
  rw [dedupLast, if_neg h]

theorem subset_dedupLast {r : Row} : ∀ (l : List Row), r ∈ dedupLast l → r ∈ l := by
  intro l
  induction l with
  | nil => simp [dedupLast]
  | cons x xs ih =>
    by_cases h : ∃ s ∈ xs, s.timestamp = x.timestamp
    · rw [dedupLast_cons_pos h]
      exact fun hm => List.mem_cons_of_mem _ (ih hm)
    · rw [dedupLast_cons_neg h]
      intro hm
      rcases List.mem_cons.1 hm with rfl | hm
      · exact List.mem_cons_self _ _
      · exact List.mem_cons_of_mem _ (ih hm)

theorem mem_ts_dedupLast {t : Int} : ∀ (l : List Row),
    t ∈ tsOf (dedupLast l) ↔ t ∈ tsOf l := by
  intro l
  induction l with
  | nil => simp [dedupLast]
  | cons x xs ih =>
    by_cases h : ∃ s ∈ xs, s.timestamp = x.timestamp
    · rw [dedupLast_cons_pos h, tsOf_cons, ih]
      obtain ⟨s, hs, hts⟩ := h
      constructor
      · exact List.mem_cons_of_mem _
      · intro hm
        rcases List.mem_cons.1 hm with rfl | hm
        · exact hts ▸ List.mem_map_of_mem Row.timestamp hs
        · exact hm
    · rw [dedupLast_cons_neg h, tsOf_cons, tsOf_cons]
      constructor
      · intro hm
        rcases List.mem_cons.1 hm with rfl | hm
        · exact List.mem_cons_self _ _
        · exact List.mem_cons_of_mem _ (ih.1 hm)
      · intro hm
        rcases List.mem_cons.1 hm with rfl | hm
        · exact List.mem_cons_self _ _
        · exact List.mem_cons_of_mem _ (ih.2 hm)

theorem tsNodup_dedupLast : ∀ (l : List Row), tsNodup (dedupLast l) := by
  intro l
  induction l with
  | nil => simp [dedupLast, tsNodup, tsOf]
  | cons x xs ih =>
    by_cases h : ∃ s ∈ xs, s.timestamp = x.timestamp
    · rw [tsNodup, dedupLast_cons_pos h]
      exact ih
    · rw [tsNodup, dedupLast_cons_neg h, tsOf_cons]
      refine List.nodup_cons.2 ⟨fun hc => ?_, ih⟩
      obtain ⟨s, hs, hts⟩ := mem_tsOf.1 ((mem_ts_dedupLast xs).1 hc)
      exact h ⟨s, hs, hts⟩

theorem dedupLast_append_absorb : ∀ (ys xs : List Row),
    (∀ y ∈ ys, y.timestamp ∈ tsOf xs) → dedupLast (ys ++ xs) = dedupLast xs := by
  intro ys xs
  induction ys with
  | nil => simp
  | cons y ys ih =>
    intro h
    obtain ⟨s, hs, hts⟩ := mem_tsOf.1 (h y (List.mem_cons_self _ _))
    have hex : ∃ z ∈ ys ++ xs, z.timestamp = y.timestamp :=
      ⟨s, List.mem_append_right _ hs, hts⟩
    rw [List.cons_append, dedupLast_cons_pos hex]
    exact ih (fun x hx => h x (List.mem_cons_of_mem _ hx))

theorem dedupLast_self_append (xs : List Row) :
    dedupLast (dedupLast xs ++ xs) = dedupLast xs :=
  dedupLast_append_absorb _ _
    (fun y hy => List.mem_map_of_mem Row.timestamp (subset_dedupLast xs hy))

theorem dedupLast_snoc_nodup {b : List Row} (s : Row) (hnd : tsNodup b) :
    dedupLast (b ++ [s]) = b.filter (fun x => ¬ x.timestamp = s.timestamp) ++ [s] := by
  induction b with
  | nil =>
    rw [List.nil_append, dedupLast_cons_neg (by simp), List.filter_nil, List.nil_append]
    rfl
  | cons x b ih =>
    have hx : x.timestamp ∉ tsOf b := (List.nodup_cons.1 hnd).1
    have hnd' : tsNodup b := (List.nodup_cons.1 hnd).2
    by_cases hts : x.timestamp = s.timestamp
    · have hex : ∃ y ∈ b ++ [s], y.timestamp = x.timestamp :=
        ⟨s, List.mem_append_right _ (List.mem_singleton.2 rfl), hts.symm⟩
      rw [List.cons_append, dedupLast_cons_pos hex, ih hnd', List.filter_cons]
      simp [hts]
    · have hex : ¬ ∃ y ∈ b ++ [s], y.timestamp = x.timestamp := by
        rintro ⟨y, hy, hyts⟩
        rcases List.mem_append.1 hy with h | h
        · exact hx (hyts ▸ List.mem_map_of_mem Row.timestamp h)
        · simp only [List.mem_singleton] at h
          subst h
          exact hts hyts.symm
      rw [List.cons_append, dedupLast_cons_neg hex, ih hnd', List.filter_cons]
      simp [hts]

/-! ## Lemmas about conflict detection -/

theorem row_ext_fields {r s : Row} (hts : r.timestamp = s.timestamp)
    (h : ∀ n ∈ valFieldNames, valField n r = valField n s) : r = s := by
  have h1 := h "temp" (by simp [valFieldNames])
  have h2 := h "co2" (by simp [valFieldNames])
  have h3 := h "pm10" (by simp [valFieldNames])
  have h4 := h "pm25" (by simp [valFieldNames])
  have h5 := h "humid" (by simp [valFieldNames])
  have h6 := h "voc" (by simp [valFieldNames])
  simp only [valField] at h1 h2 h3 h4 h5 h6
  cases r; cases s
  simp_all

theorem mismatchedFields_ne_nil {u : List Row} {r s : Row} (hr : r ∈ u) (hs : s ∈ u)
    (hts : r.timestamp = s.timestamp) (hne : r ≠ s) : ¬ mismatchedFields u = [] := by
  have hex : ∃ n ∈ valFieldNames, valField n r ≠ valField n s := by
    by_contra hc
    push_neg at hc
    exact hne (row_ext_fields hts hc)
  obtain ⟨n, hn, hval⟩ := hex
  have hmem : n ∈ mismatchedFields u := by
    rw [mismatchedFields, List.mem_filter]
    refine ⟨hn, ?_⟩
    have h1 : 1 < (dedupL (u.map (valField n))).length :=
      (one_lt_length_dedupL _).2
        ⟨valField n r, List.mem_map_of_mem _ hr, valField n s, List.mem_map_of_mem _ hs, hval⟩
    simpa using h1
  intro hc
  rw [hc] at hmem
  simp at hmem

theorem mem_groupAt {r : Row} {rows : List Row} {t : Int} :
    r ∈ groupAt rows t ↔ r ∈ rows ∧ r.timestamp = t := by
  simp [groupAt]

theorem conflictEntry_eq (combined : List Row) (t : Int) :
    conflictEntry combined t =
      if 2 ≤ (groupAt combined t).length ∧ 1 < (dedupL (groupAt combined t)).length ∧
          ¬ mismatchedFields (dedupL (groupAt combined t)) = []
      then some (t, mismatchedFields (dedupL (groupAt combined t)))
      else none := by
  rw [conflictEntry]
  split_ifs <;> simp_all

theorem conflictEntry_isSome_iff {combined : List Row} {t : Int} :
    (conflictEntry combined t).isSome ↔
      ∃ r ∈ combined, ∃ s ∈ combined, r.timestamp = t ∧ s.timestamp = t ∧ r ≠ s := by
  rw [conflictEntry_eq]
  constructor
  · intro h
    split_ifs at h with hc
    · obtain ⟨a, ha, b, hb, hab⟩ :=
        (one_lt_length_dedupL (groupAt combined t)).1 hc.2.1
      obtain ⟨ha1, ha2⟩ := mem_groupAt.1 ha
      obtain ⟨hb1, hb2⟩ := mem_groupAt.1 hb
      exact ⟨a, ha1, b, hb1, ha2, hb2, hab⟩
    · simp at h
  · rintro ⟨r, hr, s, hs, hrt, hst, hne⟩
    have hrg : r ∈ groupAt combined t := mem_groupAt.2 ⟨hr, hrt⟩
    have hsg : s ∈ groupAt combined t := mem_groupAt.2 ⟨hs, hst⟩
    have h2 : 2 ≤ (groupAt combined t).length := two_mem_length hrg hsg hne
    have h1 : 1 < (dedupL (groupAt combined t)).length :=
      (one_lt_length_dedupL _).2 ⟨r, hrg, s, hsg, hne⟩
    have hfs : ¬ mismatchedFields (dedupL (groupAt combined t)) = [] :=
      mismatchedFields_ne_nil ((mem_dedupL _).2 hrg) ((mem_dedupL _).2 hsg)
        (hrt.trans hst.symm) hne
    rw [if_pos ⟨h2, h1, hfs⟩]
    simp

theorem conflictEntry_some_shape {combined : List Row} {t : Int}
    {p : Int × List String} (h : conflictEntry combined t = some p) :
    p.1 = t ∧ ¬ p.2 = [] ∧ p.2 = mismatchedFields (dedupL (groupAt combined t)) := by
  rw [conflictEntry_eq] at h
  split_ifs at h with hc
  obtain rfl : (t, mismatchedFields (dedupL (groupAt combined t))) = p :=
    Option.some_injective _ h
  exact ⟨rfl, hc.2.2, rfl⟩

theorem mem_sortInts {t : Int} (l : List Int) : t ∈ sortInts l ↔ t ∈ l :=
  (List.perm_insertionSort _ l).mem_iff

theorem mem_sortedTimestamps {t : Int} (rows : List Row) :
    t ∈ sortedTimestamps rows ↔ t ∈ tsOf rows := by
  rw [sortedTimestamps, mem_sortInts, mem_dedupL]
  rfl

theorem conflictGroups_eq_nil_iff {combined : List Row} :
    conflictGroups combined = [] ↔ ¬ conflictProp combined := by
  rw [conflictGroups, List.filterMap_eq_nil_iff]
  constructor
  · intro h hc
    obtain ⟨r, hr, s, hs, hts, hne⟩ := hc
    have hmem : r.timestamp ∈ sortedTimestamps combined :=
      (mem_sortedTimestamps _).2 (List.mem_map_of_mem Row.timestamp hr)
    have hsome : (conflictEntry combined r.timestamp).isSome :=
      conflictEntry_isSome_iff.2 ⟨r, hr, s, hs, rfl, hts.symm, hne⟩
    rw [h _ hmem] at hsome
    simp at hsome
  · intro h t _
    by_contra hc
    have hsome : (conflictEntry combined t).isSome :=
      Option.ne_none_iff_isSome.1 hc
    obtain ⟨r, hr, s, hs, hrt, hst, hne⟩ := conflictEntry_isSome_iff.1 hsome
    exact h ⟨r, hr, s, hs, hrt.trans hst.symm, hne⟩

theorem conflictProp_congr {l₁ l₂ : List Row} (h : ∀ x : Row, x ∈ l₁ ↔ x ∈ l₂) :
    conflictProp l₁ ↔ conflictProp l₂ := by
  constructor
  · rintro ⟨r, hr, s, hs, hts, hne⟩
    exact ⟨r, (h r).1 hr, s, (h s).1 hs, hts, hne⟩
  · rintro ⟨r, hr, s, hs, hts, hne⟩
    exact ⟨r, (h r).2 hr, s, (h s).2 hs, hts, hne⟩

/-! ## Lemmas about `insert_air_data` -/

theorem insert_nil (action : ConflictAction) (st : StoreState) :
    insert_air_data action st [] = ⟨st, .ok 0, []⟩ := by
  rcases st with ⟨batch, dirty⟩
  cases batch <;> simp [insert_air_data]

theorem insert_noBatch (action : ConflictAction) (d : Bool) (data : List Row) :
    insert_air_data action ⟨none, d⟩ data = ⟨⟨none, d⟩, .ok 0, []⟩ := by
  simp [insert_air_data]

theorem insert_some_error {buf data : List Row} {d : Bool} {c : Int × List String}
    {rest : List (Int × List String)} (hd : ¬ data = [])
    (hc : conflictGroups (buf ++ data) = c :: rest) :
    insert_air_data .error ⟨some buf, d⟩ data = ⟨⟨some buf, d⟩, .error c, []⟩ := by
  simp only [insert_air_data, if_neg hd, hc]

theorem insert_some_normal {action : ConflictAction} {buf data nb : List Row} {d : Bool}
    (hd : ¬ data = [])
    (hne : ¬ (action = .error ∧ ¬ conflictGroups (buf ++ data) = []))
    (hnb : nb = (if ¬ conflictGroups (buf ++ data) = [] ∧ action = .replace
            then dedupLast (buf ++ data) else dedupFirst (buf ++ data))) :
    insert_air_data action ⟨some buf, d⟩ data =
      ⟨⟨some nb, if 0 < (nb.length : Int) - (buf.length : Int) then true else d⟩,
        .ok (max 0 ((nb.length : Int) - (buf.length : Int))).toNat,
        if action = .warn then conflictGroups (buf ++ data) else []⟩ := by
  subst hnb
  cases action with
  | error =>
    have hc : conflictGroups (buf ++ data) = [] := by
      by_contra hc
      exact hne ⟨rfl, hc⟩
    simp only [insert_air_data, if_neg hd, hc]
  | warn =>
    cases hc : conflictGroups (buf ++ data) with
    | nil => simp only [insert_air_data, if_neg hd, hc]
    | cons c rest => simp only [insert_air_data, if_neg hd, hc]
  | replace =>
    cases hc : conflictGroups (buf ++ data) with
    | nil => simp only [insert_air_data, if_neg hd, hc]
    | cons c rest => simp only [insert_air_data, if_neg hd, hc]

theorem insert_state_nodup {action : ConflictAction} {st : StoreState} {data : List Row}
    (hinv : ∀ b, st.batch = some b → tsNodup b) :
    ∀ b, (insert_air_data action st data).state.batch = some b → tsNodup b := by
  rcases st with ⟨batch, d⟩
  cases batch with
  | none => rw [insert_noBatch]; exact hinv
  | some buf =>
    by_cases hd : data = []
    · subst hd
      rw [insert_nil]
      exact hinv
    · by_cases herr : action = .error ∧ ¬ conflictGroups (buf ++ data) = []
      · obtain ⟨ha, hc⟩ := herr
        subst ha
        rcases hx : conflictGroups (buf ++ data) with _ | ⟨c, rest⟩
        · exact absurd hx hc
        · rw [insert_some_error hd hx]
          exact hinv
      · rw [insert_some_normal hd herr rfl]
        intro b hb
        have hb' : (if ¬ conflictGroups (buf ++ data) = [] ∧ action = .replace
            then dedupLast (buf ++ data) else dedupFirst (buf ++ data)) = b := by
          simpa using hb
        rw [← hb']
        split
        · exact tsNodup_dedupLast _
        · exact tsNodup_dedupFirst _

theorem second_insert_eq {action : ConflictAction} {data nb : List Row} {d1 : Bool}
    (hd : ¬ data = [])
    (hnb : nb = if ¬ conflictGroups data = [] ∧ action = .replace
            then dedupLast data else dedupFirst data)
    (hok : ¬ (action = .error ∧ ¬ conflictGroups data = [])) :
    insert_air_data action ⟨some nb, d1⟩ data =
      ⟨⟨some nb, d1⟩, .ok 0,
        if action = .warn then conflictGroups (nb ++ data) else []⟩ := by
  have hsub : ∀ x ∈ nb, x ∈ data := by
    intro x hx
    rw [hnb] at hx
    split at hx
    · exact subset_dedupLast _ hx
    · exact subset_dedupFirst _ hx
  have hmem : ∀ x : Row, x ∈ nb ++ data ↔ x ∈ data := fun x =>
    ⟨fun hx => (List.mem_append.1 hx).elim (hsub x) id,
      fun hx => List.mem_append_right _ hx⟩
  have hcgs : (conflictGroups (nb ++ data) = []) ↔ (conflictGroups data = []) := by
    rw [conflictGroups_eq_nil_iff, conflictGroups_eq_nil_iff]
    exact not_congr (conflictProp_congr hmem)
  have hok2 : ¬ (action = .error ∧ ¬ conflictGroups (nb ++ data) = []) := by
    rintro ⟨ha, hc⟩
    exact hok ⟨ha, fun h => hc (hcgs.2 h)⟩
  rw [insert_some_normal hd hok2 rfl]
  have hnb2 : (if ¬ conflictGroups (nb ++ data) = [] ∧ action = .replace
      then dedupLast (nb ++ data) else dedupFirst (nb ++ data)) = nb := by
    by_cases hcr : ¬ conflictGroups data = [] ∧ action = .replace
    · rw [if_pos ⟨fun h => hcr.1 (hcgs.1 h), hcr.2⟩, hnb, if_pos hcr]
      exact dedupLast_self_append data
    · rw [if_neg (fun hcon => hcr ⟨fun h => hcon.1 (hcgs.2 h), hcon.2⟩), hnb, if_neg hcr]
      exact dedupFirst_self_append data
  rw [hnb2]
  simp

/-! ## Lemmas about sorting and sessions -/

theorem sorted_sortByTimestamp (rows : List Row) :
    List.Sorted tsLE (sortByTimestamp rows) :=
  List.sorted_insertionSort tsLE rows

theorem perm_sortByTimestamp (rows : List Row) :
    (sortByTimestamp rows).Perm rows :=
  List.perm_insertionSort tsLE rows

theorem tsNodup_sortByTimestamp {rows : List Row} (h : tsNodup rows) :
    tsNodup (sortByTimestamp rows) :=
  (((perm_sortByTimestamp rows).map Row.timestamp).nodup_iff).2 h

theorem exit_wellFormed {file : Option (List Row)} {st : StoreState} {e : Bool}
    (hfile : wellFormedFile file) (hinv : ∀ b, st.batch = some b → tsNodup b) :
    wellFormedFile (exitSession file st e).1 := by
  rcases st with ⟨batch, d⟩
  cases batch with
  | none => exact hfile
  | some buf =>
    rw [exitSession]
    cases d with
    | false => exact hfile
    | true =>
      refine ⟨sorted_sortByTimestamp buf, tsNodup_sortByTimestamp (hinv buf rfl)⟩

theorem runInserts_nodup {action : ConflictAction} :
    ∀ (batches : List (List Row)) (st : StoreState),
      (∀ b, st.batch = some b → tsNodup b) →
      ∀ b, (runInserts action st batches).batch = some b → tsNodup b := by
  intro batches
  induction batches with
  | nil => intro st hinv; exact hinv
  | cons data rest ih =>
    intro st hinv
    exact ih _ (insert_state_nodup hinv)

/-! ## Lemmas about the backfill loop -/

theorem pageInsertedSum_append (t1 t2 : List Ev) :
    pageInsertedSum (t1 ++ t2) = pageInsertedSum t1 + pageInsertedSum t2 := by
  simp [pageInsertedSum]

theorem pageInsertedSum_httpErr : pageInsertedSum [Ev.httpErr] = 0 := rfl

theorem pageInsertedSum_pageEv (c i : Nat) : pageInsertedSum [Ev.pageEv c i] = i := by
  simp [pageInsertedSum]

theorem insert_result_ok_of_ne_error {action : ConflictAction} (st : StoreState)
    (data : List Row) (ha : ¬ action = .error) :
    ∃ n, (insert_air_data action st data).result = .ok n := by
  rcases st with ⟨batch, d⟩
  cases batch with
  | none => exact ⟨0, by rw [insert_noBatch]⟩
  | some buf =>
    by_cases hd : data = []
    · subst hd
      exact ⟨0, by rw [insert_nil]⟩
    · refine ⟨_, by rw [insert_some_normal hd (fun hc => ha hc.1) rfl]⟩

theorem fetchLoop_requests_le (action : ConflictAction) (oracle : Nat → FetchResp)
    (startDate : Int) (ti tr : Nat) (cur : Int) (sink : Option StoreState) (trace : List Ev) :
    (fetchLoop action oracle startDate ti tr cur sink trace).totalRequests ≤
      tr + (cur - startDate).toNat := by
  induction ti, tr, cur, sink, trace using fetchLoop.induct action oracle startDate with
  | case1 ti tr cur sink trace h hor =>
    rw [fetchLoop, dif_pos h]
    simp only [hor]
    show tr + 1 ≤ tr + (cur - startDate).toNat
    omega
  | case2 ti tr cur sink trace h hor ih =>
    rw [fetchLoop, dif_pos h]
    simp only [hor]
    omega
  | case3 ti tr cur trace h st hor =>
    rw [fetchLoop, dif_pos h]
    simp only [hor]
    show tr + 1 ≤ tr + (cur - startDate).toNat
    omega
  | case4 ti tr cur trace h rows hor st hrows o e hres =>
    rw [fetchLoop, dif_pos h]
    simp only [hor, if_neg hrows]
    rw [show (insert_air_data action st rows).result = Except.error e from hres]
    show tr + 1 ≤ tr + (cur - startDate).toNat
    omega
  | case5 ti tr cur trace h rows hor st hrows o ins hres ih =>
    rw [fetchLoop, dif_pos h]
    simp only [hor, if_neg hrows]
    rw [show (insert_air_data action st rows).result = Except.ok ins from hres]
    have hlt := nextWindowEnd_lt rows cur
    exact le_trans ih (by omega)
  | case6 ti tr cur trace h hor =>
    rw [fetchLoop, dif_pos h]
    simp only [hor]
    show tr + 1 ≤ tr + (cur - startDate).toNat
    omega
  | case7 ti tr cur trace h rows hor hrows ih =>
    rw [fetchLoop, dif_pos h]
    simp only [hor, if_neg hrows]
    have hlt := nextWindowEnd_lt rows cur
    exact le_trans ih (by omega)
  | case8 ti tr cur sink trace h =>
    rw [fetchLoop, dif_neg h]
    show tr ≤ tr + (cur - startDate).toNat
    omega

theorem fetchLoop_inserted_eq (action : ConflictAction) (oracle : Nat → FetchResp)
    (startDate : Int) (ti tr : Nat) (cur : Int) (sink : Option StoreState) (trace : List Ev) :
    (fetchLoop action oracle startDate ti tr cur sink trace).totalInserted +
        pageInsertedSum trace =
      ti + pageInsertedSum (fetchLoop action oracle startDate ti tr cur sink trace).trace := by
  induction ti, tr, cur, sink, trace using fetchLoop.induct action oracle startDate with
  | case1 ti tr cur sink trace h hor =>
    rw [fetchLoop, dif_pos h]
    simp only [hor]
    show ti + pageInsertedSum trace = ti + pageInsertedSum (trace ++ [Ev.rl429])
    simp [pageInsertedSum_append, pageInsertedSum]
  | case2 ti tr cur sink trace h hor ih =>
    rw [fetchLoop, dif_pos h]
    simp only [hor]
    rw [pageInsertedSum_append, pageInsertedSum_httpErr] at ih
    omega
  | case3 ti tr cur trace h st hor =>
    rw [fetchLoop, dif_pos h]
    simp only [hor]
    show ti + pageInsertedSum trace = ti + pageInsertedSum (trace ++ [Ev.emptyPage])
    simp [pageInsertedSum_append, pageInsertedSum]
  | case4 ti tr cur trace h rows hor st hrows o e hres =>
    rw [fetchLoop, dif_pos h]
    simp only [hor, if_neg hrows]
    rw [show (insert_air_data action st rows).result = Except.error e from hres]
  | case5 ti tr cur trace h rows hor st hrows o ins hres ih =>
    rw [fetchLoop, dif_pos h]
    simp only [hor, if_neg hrows]
    rw [show (insert_air_data action st rows).result = Except.ok ins from hres]
    have ih2 : (fetchLoop action oracle startDate (ti + ins) (tr + 1)
          (nextWindowEnd rows cur) (some (insert_air_data action st rows).state)
          (trace ++ [Ev.pageEv rows.length ins])).totalInserted +
            pageInsertedSum (trace ++ [Ev.pageEv rows.length ins]) =
        (ti + ins) + pageInsertedSum (fetchLoop action oracle startDate (ti + ins) (tr + 1)
          (nextWindowEnd rows cur) (some (insert_air_data action st rows).state)
          (trace ++ [Ev.pageEv rows.length ins])).trace := ih
    rw [pageInsertedSum_append, pageInsertedSum_pageEv] at ih2
    show (fetchLoop action oracle startDate (ti + ins) (tr + 1)
          (nextWindowEnd rows cur) (some (insert_air_data action st rows).state)
          (trace ++ [Ev.pageEv rows.length ins])).totalInserted +
            pageInsertedSum trace =
        ti + pageInsertedSum (fetchLoop action oracle startDate (ti + ins) (tr + 1)
          (nextWindowEnd rows cur) (some (insert_air_data action st rows).state)
          (trace ++ [Ev.pageEv rows.length ins])).trace
    omega
  | case6 ti tr cur trace h hor =>
    rw [fetchLoop, dif_pos h]
    simp only [hor]
    show ti + pageInsertedSum trace = ti + pageInsertedSum (trace ++ [Ev.emptyPage])
    simp [pageInsertedSum_append, pageInsertedSum]
  | case7 ti tr cur trace h rows hor hrows ih =>
    rw [fetchLoop, dif_pos h]
    simp only [hor, if_neg hrows]
    rw [pageInsertedSum_append, pageInsertedSum_pageEv] at ih
    omega
  | case8 ti tr cur sink trace h =>
    rw [fetchLoop, dif_neg h]

/-! ## Lemmas about row normalization -/

theorem lookupComp_isSome_iff {ss : List SensorReading} {k : String} :
    (lookupComp ss k).isSome = true ↔ ∃ s ∈ ss, s.comp = k := by
  rw [lookupComp]
  simp [List.find?_isSome, List.mem_reverse]

theorem lookupComp_isSome_any (ss : List SensorReading) (k : String) :
    (lookupComp ss k).isSome = ss.any (fun s => s.comp = k) := by
  by_cases hex : ∃ s ∈ ss, s.comp = k
  · rw [lookupComp_isSome_iff.2 hex]
    have : ss.any (fun s => s.comp = k) = true := by
      simp only [List.any_eq_true, decide_eq_true_eq]
      exact hex
    rw [this]
  · have h1 : ¬ (lookupComp ss k).isSome = true := fun h => hex (lookupComp_isSome_iff.1 h)
    have h2 : ¬ ss.any (fun s => s.comp = k) = true := by
      simp only [List.any_eq_true, decide_eq_true_eq]
      exact hex
    rw [Bool.not_eq_true] at h1 h2
    rw [h1, h2]

theorem lookupComp_append_ne {ss : List SensorReading} {x : SensorReading} {k : String}
    (h : ¬ x.comp = k) : lookupComp (ss ++ [x]) k = lookupComp ss k := by
  rw [lookupComp, lookupComp, List.reverse_append]
  have : ([x].reverse ++ ss.reverse).find? (fun s => s.comp = k) =
      ss.reverse.find? (fun s => s.comp = k) := by
    simp only [List.reverse_singleton, List.singleton_append]
    rw [List.find?_cons_of_neg]
    simpa using h
  rw [this]

theorem normalizeDatum_isOk_eq (d : Datum) :
    (normalizeDatum d).isOk =
      ((lookupComp d.sensors "temp").isSome && (lookupComp d.sensors "co2").isSome &&
        (lookupComp d.sensors "pm10").isSome && (lookupComp d.sensors "pm25").isSome &&
        (lookupComp d.sensors "humid").isSome && (lookupComp d.sensors "voc").isSome) := by
  rw [normalizeDatum]
  cases lookupComp d.sensors "temp" <;> cases lookupComp d.sensors "co2" <;>
    cases lookupComp d.sensors "pm10" <;> cases lookupComp d.sensors "pm25" <;>
    cases lookupComp d.sensors "humid" <;> cases lookupComp d.sensors "voc" <;> rfl

theorem normalizeDatum_ok_values (d : Datum) (row : Row)
    (h : normalizeDatum d = .ok row) :
    row.timestamp = (lookupComp d.sensors "timestamp").getD d.timestamp ∧
      ∀ n ∈ valFieldNames, lookupComp d.sensors n = some (valField n row) := by
  rw [normalizeDatum] at h
  cases h1 : lookupComp d.sensors "temp" <;> rw [h1] at h <;>
    cases h2 : lookupComp d.sensors "co2" <;> rw [h2] at h <;>
    cases h3 : lookupComp d.sensors "pm10" <;> rw [h3] at h <;>
    cases h4 : lookupComp d.sensors "pm25" <;> rw [h4] at h <;>
    cases h5 : lookupComp d.sensors "humid" <;> rw [h5] at h <;>
    cases h6 : lookupComp d.sensors "voc" <;> rw [h6] at h <;>
    simp only [] at h <;>
    first
      | exact Except.noConfusion h
      | skip
  obtain rfl := Except.ok.inj h
  refine ⟨rfl, ?_⟩
  intro n hn
  simp only [valFieldNames, List.mem_cons, List.not_mem_nil, or_false] at hn
  rcases hn with rfl | rfl | rfl | rfl | rfl | rfl <;>
    simp [valField, h1, h2, h3, h4, h5, h6]

/-! ## Claim theorems -/

/-- C1, counterexample: the claim says that on exceptional session exit the
staging buffer is discarded and the backing file is not written.  On the
code, `__exit__` never inspects `exc_type`: starting from an absent backing
file, one insert marks the session dirty, and an exceptional exit
(`excType = true`) still writes the buffer — the file becomes `some [rowA]`
instead of remaining absent. -/
theorem c1_exception_exit_still_writes_counterexample :
    (insert_air_data .warn (enterSession none) [rowA]).state.dirty = true ∧
    (exitSession none (insert_air_data .warn (enterSession none) [rowA]).state true).1 =
      some [rowA] := by
  exact ⟨rfl, rfl⟩

/-- C1, amended: on session exit, exceptional or normal alike, if an insert
mutated the buffer (the session is dirty) then the sorted buffer is written
to the backing file and the buffer reference is cleared; exceptional exit
behaves exactly like normal exit (the exception information is ignored). -/
theorem c1_exit_ignores_exception_amended (file : Option (List Row)) (st : StoreState)
    (e : Bool) (buf : List Row) (hb : st.batch = some buf) (hd : st.dirty = true) :
    exitSession file st e = (some (sortByTimestamp buf), ⟨none, false⟩) ∧
    exitSession file st e = exitSession file st false := by
  rcases st with ⟨batch, dirty⟩
  obtain rfl : batch = some buf := hb
  obtain rfl : dirty = true := hd
  exact ⟨rfl, rfl⟩

/-- Witness for C1's amended theorem at a concrete dirty session. -/
theorem c1_exit_ignores_exception_amended_witness :
    exitSession none ⟨some [rowA], true⟩ true =
      (some (sortByTimestamp [rowA]), ⟨none, false⟩) ∧
    exitSession none ⟨some [rowA], true⟩ true =
      exitSession none ⟨some [rowA], true⟩ false :=
  c1_exit_ignores_exception_amended none ⟨some [rowA], true⟩ true [rowA] rfl rfl

/-- C9, counterexample: the claim says `summary()` reports the dataset size
in bytes.  With a backing object of 2097152 bytes the reported size is 2
(megabytes, `bytes / 1024²`), not 2097152. -/
theorem c9_size_not_bytes_counterexample :
    (get_data_summary (some [rowA]) (some 2097152) ⟨none, false⟩).file_size_mb = 2 ∧
    ¬ (get_data_summary (some [rowA]) (some 2097152) ⟨none, false⟩).file_size_mb =
        2097152 := by
  have hsz : (get_data_summary (some [rowA]) (some 2097152) ⟨none, false⟩).file_size_mb =
      ((2097152 : Nat) : ℚ) / (1024 * 1024) := rfl
  constructor
  · rw [hsz]; norm_num
  · rw [hsz]; norm_num

/-- C9, amended: for a nonempty dataset, `get_data_summary` returns the
record count, earliest and latest timestamps, and the dataset's size in
megabytes (medium-reported bytes divided by 1024²), the size being looked
up from the backing storage medium (`fsB`) independently of whether a
session is open or what the buffer holds. -/
theorem c9_summary_megabytes_amended (file : Option (List Row)) (fsB : Option Nat)
    (buf rows : List Row) (d d2 : Bool) (hbuf : ¬ buf = []) (hrows : ¬ rows = []) :
    get_data_summary file fsB ⟨some buf, d⟩ =
      ⟨buf.length, some (minTimestamp buf), some (maxTimestamp buf), get_file_size fsB⟩ ∧
    get_data_summary (some rows) fsB ⟨none, d2⟩ =
      ⟨rows.length, some (minTimestamp rows), some (maxTimestamp rows),
        get_file_size fsB⟩ := by
  constructor
  · simp only [get_data_summary, if_neg hbuf]
  · simp only [get_data_summary, if_neg hrows]

/-- Witness for C9's amended theorem at a concrete store and a 1 MiB file. -/
theorem c9_summary_megabytes_amended_witness :
    get_data_summary (some [rowA]) (some 1048576) ⟨some [rowA], false⟩ =
      ⟨[rowA].length, some (minTimestamp [rowA]), some (maxTimestamp [rowA]),
        get_file_size (some 1048576)⟩ ∧
    get_data_summary (some [rowA]) (some 1048576) ⟨none, false⟩ =
      ⟨[rowA].length, some (minTimestamp [rowA]), some (maxTimestamp [rowA]),
        get_file_size (some 1048576)⟩ :=
  c9_summary_megabytes_amended (some [rowA]) (some 1048576) [rowA] [rowA] false false
    (by decide) (by decide)

/-- C10: if `insert_air_data` under the `error` policy raises on a data
conflict, the staging buffer and the dirty flag at the moment of the raise
are exactly what they were before the call — the raise happens before any
assignment to `_batch_df` or `_dirty`. -/
theorem c10_error_raise_preserves_state (st : StoreState) (data : List Row)
    (e : Int × List String)
    (h : (insert_air_data .error st data).result = .error e) :
    (insert_air_data .error st data).state.batch = st.batch ∧
    (insert_air_data .error st data).state.dirty = st.dirty := by
  suffices hs : (insert_air_data .error st data).state = st by
    rw [hs]
    exact ⟨rfl, rfl⟩
  rcases st with ⟨batch, d⟩
  cases batch with
  | none => rw [insert_noBatch]
  | some buf =>
    by_cases hd : data = []
    · subst hd
      rw [insert_nil]
    · rcases hx : conflictGroups (buf ++ data) with _ | ⟨c, rest⟩
      · rw [insert_some_normal hd (by rintro ⟨_, hc⟩; exact hc hx) rfl] at h
        simp at h
      · rw [insert_some_error hd hx]

/-- Witness for C10 at a concrete conflicting insert. -/
theorem c10_error_raise_preserves_state_witness :
    (insert_air_data .error ⟨some [rowA], false⟩ [rowB]).state.batch = some [rowA] ∧
    (insert_air_data .error ⟨some [rowA], false⟩ [rowB]).state.dirty = false :=
  c10_error_raise_preserves_state ⟨some [rowA], false⟩ [rowB] (50, ["temp"]) (by decide)

/-- C3: for a session whose buffer holds `r` and an inserted row `s` with
the same timestamp but different field values: the `error` policy raises;
the `warn` policy keeps the buffer exactly as it was (first-seen values)
and logs a warning naming the conflicting timestamp with a nonempty list of
mismatched fields; the `replace` policy keeps the newly inserted row's
values, dropping the old row at that timestamp. -/
theorem c3_conflict_policy_semantics (b : List Row) (r s : Row) (d : Bool)
    (hnd : tsNodup b) (hr : r ∈ b) (hts : s.timestamp = r.timestamp) (hne : ¬ s = r) :
    (∃ e, (insert_air_data .error ⟨some b, d⟩ [s]).result = .error e) ∧
    ((insert_air_data .warn ⟨some b, d⟩ [s]).state.batch = some b ∧
      ∃ fs, (r.timestamp, fs) ∈ (insert_air_data .warn ⟨some b, d⟩ [s]).warnings ∧
        ¬ fs = []) ∧
    (insert_air_data .replace ⟨some b, d⟩ [s]).state.batch =
      some (b.filter (fun x => ¬ x.timestamp = s.timestamp) ++ [s]) := by
  have hd : ¬ [s] = [] := by simp
  have hsmem : s ∈ b ++ [s] := List.mem_append_right _ (List.mem_singleton.2 rfl)
  have hrmem : r ∈ b ++ [s] := List.mem_append_left _ hr
  have hconf : conflictProp (b ++ [s]) :=
    ⟨r, hrmem, s, hsmem, hts.symm, fun hc => hne hc.symm⟩
  have hcgs : ¬ conflictGroups (b ++ [s]) = [] :=
    fun h => (conflictGroups_eq_nil_iff.1 h) hconf
  have hsub : ∀ t ∈ tsOf [s], t ∈ tsOf b := by
    intro t ht
    simp only [tsOf, List.map_cons, List.map_nil, List.mem_singleton] at ht
    subst ht
    rw [hts]
    exact List.mem_map_of_mem Row.timestamp hr
  have hwarnok : ¬ (ConflictAction.warn = ConflictAction.error ∧
      ¬ conflictGroups (b ++ [s]) = []) := by rintro ⟨h1, _⟩; cases h1
  have hwarnbuf : b = (if ¬ conflictGroups (b ++ [s]) = [] ∧
      ConflictAction.warn = ConflictAction.replace
      then dedupLast (b ++ [s]) else dedupFirst (b ++ [s])) := by
    rw [if_neg (by rintro ⟨_, h2⟩; cases h2)]
    exact (dedupFirst_absorb hnd hsub).symm
  have hwarn := insert_some_normal (d := d) hd hwarnok hwarnbuf
  refine ⟨?_, ⟨?_, ?_⟩, ?_⟩
  · rcases hx : conflictGroups (b ++ [s]) with _ | ⟨c, rest⟩
    · exact absurd hx hcgs
    · rw [insert_some_error hd hx]
      exact ⟨c, rfl⟩
  · rw [hwarn]
  · rw [hwarn]
    have hsome : (conflictEntry (b ++ [s]) r.timestamp).isSome :=
      conflictEntry_isSome_iff.2 ⟨r, hrmem, s, hsmem, rfl, hts, fun hc => hne hc.symm⟩
    obtain ⟨p, hp⟩ := Option.isSome_iff_exists.1 hsome
    obtain ⟨hp1, hp2, _⟩ := conflictEntry_some_shape hp
    refine ⟨p.2, ?_, hp2⟩
    show (r.timestamp, p.2) ∈
      (if ConflictAction.warn = ConflictAction.warn
        then conflictGroups (b ++ [s]) else [])
    rw [if_pos rfl]
    refine List.mem_filterMap.2 ⟨r.timestamp, ?_, ?_⟩
    · exact (mem_sortedTimestamps _).2 (List.mem_map_of_mem Row.timestamp hrmem)
    · rw [hp]
      rw [show (r.timestamp, p.2) = p from by rw [← hp1]]
  · have hrepok : ¬ (ConflictAction.replace = ConflictAction.error ∧
        ¬ conflictGroups (b ++ [s]) = []) := by rintro ⟨h1, _⟩; cases h1
    have hrepbuf : dedupLast (b ++ [s]) = (if ¬ conflictGroups (b ++ [s]) = [] ∧
        ConflictAction.replace = ConflictAction.replace
        then dedupLast (b ++ [s]) else dedupFirst (b ++ [s])) := by
      rw [if_pos ⟨hcgs, rfl⟩]
    rw [insert_some_normal (d := d) hd hrepok hrepbuf]
    rw [dedupLast_snoc_nodup s hnd]

/-- Witness for C3 at a two-row fixture: `rowA` in the buffer, `rowB`
inserted, equal timestamps and different temperatures. -/
theorem c3_conflict_policy_semantics_witness :
    (∃ e, (insert_air_data .error ⟨some [rowA], false⟩ [rowB]).result = .error e) ∧
    ((insert_air_data .warn ⟨some [rowA], false⟩ [rowB]).state.batch = some [rowA] ∧
      ∃ fs, (rowA.timestamp, fs) ∈
          (insert_air_data .warn ⟨some [rowA], false⟩ [rowB]).warnings ∧ ¬ fs = []) ∧
    (insert_air_data .replace ⟨some [rowA], false⟩ [rowB]).state.batch =
      some ([rowA].filter (fun x => ¬ x.timestamp = rowB.timestamp) ++ [rowB]) :=
  c3_conflict_policy_semantics [rowA] rowA rowB false (by unfold tsNodup; decide)
    (by decide) (by decide) (by decide)

/-- C4: inserting the same batch twice into a fresh empty open store leaves
the state after the second insert identical to the state after the first
(same record count), and the second insert returns 0. -/
theorem c4_insert_twice_idempotent (action : ConflictAction) (data : List Row)
    (st1 : StoreState) (n1 : Nat) (w1 : List (Int × List String))
    (h : insert_air_data action (enterSession none) data = ⟨st1, .ok n1, w1⟩) :
    (insert_air_data action st1 data).state = st1 ∧
    (insert_air_data action st1 data).result = .ok 0 ∧
    get_record_count none (insert_air_data action st1 data).state =
      get_record_count none st1 := by
  suffices hmain : (insert_air_data action st1 data).state = st1 ∧
      (insert_air_data action st1 data).result = .ok 0 by
    exact ⟨hmain.1, hmain.2, by rw [hmain.1]⟩
  by_cases hd : data = []
  · subst hd
    rw [insert_nil] at h
    injection h with h1 h2 h3
    subst h1
    rw [insert_nil]
    exact ⟨rfl, rfl⟩
  · have henter : enterSession none = ⟨some [], false⟩ := rfl
    rw [henter] at h
    by_cases herr : action = .error ∧ ¬ conflictGroups data = []
    · obtain ⟨ha, hc⟩ := herr
      subst ha
      rcases hx : conflictGroups data with _ | ⟨c, rest⟩
      · exact absurd hx hc
      · have hx2 : conflictGroups ([] ++ data) = c :: rest := by rwa [List.nil_append]
        rw [insert_some_error hd hx2] at h
        injection h with h1 h2 h3
        exact absurd h2 (by simp)
    · have herr2 : ¬ (action = .error ∧ ¬ conflictGroups ([] ++ data) = []) := by
        rwa [List.nil_append]
      rw [insert_some_normal hd herr2 rfl] at h
      simp only [List.nil_append, List.length_nil, Nat.cast_zero, sub_zero] at h
      injection h with h1 h2 h3
      subst h1
      rw [second_insert_eq hd rfl herr]
      exact ⟨rfl, rfl⟩

/-- Witness for C4 at a concrete two-row batch. -/
theorem c4_insert_twice_idempotent_witness :
    (insert_air_data .warn ⟨some [rowA, rowC], true⟩ [rowA, rowC]).state =
      ⟨some [rowA, rowC], true⟩ ∧
    (insert_air_data .warn ⟨some [rowA, rowC], true⟩ [rowA, rowC]).result = .ok 0 ∧
    get_record_count none
        (insert_air_data .warn ⟨some [rowA, rowC], true⟩ [rowA, rowC]).state =
      get_record_count none ⟨some [rowA, rowC], true⟩ :=
  c4_insert_twice_idempotent .warn [rowA, rowC] ⟨some [rowA, rowC], true⟩ 2 []
    (by decide)

/-- C5: starting from a well-formed backing file (absent, or sorted with
unique timestamps), any sequence of inserts followed by a session close
leaves the backing file well formed: rows in non-decreasing timestamp order
with no duplicate timestamps. -/
theorem c5_close_sorted_nodup (action : ConflictAction) (file : Option (List Row))
    (batches : List (List Row)) (e : Bool) (hw : wellFormedFile file) :
    wellFormedFile
      (exitSession file (runInserts action (enterSession file) batches) e).1 := by
  refine exit_wellFormed hw (runInserts_nodup batches _ ?_)
  intro b hb
  obtain rfl : file.getD [] = b := Option.some_injective _ hb
  cases file with
  | none => simp [tsNodup, tsOf]
  | some rows => exact hw.2

/-- Witness for C5: an absent file, one inserted batch, exceptional close. -/
theorem c5_close_sorted_nodup_witness :
    wellFormedFile
      (exitSession none (runInserts .warn (enterSession none) [[rowA, rowC]]) true).1 :=
  c5_close_sorted_nodup .warn none [[rowA, rowC]] true trivial

/-- C2, counterexample: the claim says `fetch_date_range` returns
`total_inserted`.  The source has no `return` statement: against an
endpoint serving one one-row page and then an empty page, the run inserts
1 row (`total_inserted = 1`) yet the call returns `None`, not 1. -/
theorem c2_returns_none_counterexample :
    (fetch_date_range .warn oraclePageThenEmpty 0 100 (some (enterSession none))).2 =
      none ∧
    (fetch_date_range .warn oraclePageThenEmpty 0 100
        (some (enterSession none))).1.totalInserted = 1 := by
  refine ⟨rfl, ?_⟩
  have h1 : fetchLoop .warn oraclePageThenEmpty 0 0 0 100 (some (enterSession none)) [] =
      fetchLoop .warn oraclePageThenEmpty 0 1 1 49 (some ⟨some [rowA], true⟩)
        [Ev.pageEv 1 1] := by
    rw [fetchLoop, dif_pos (show (0 : Int) < 100 by norm_num)]
    rfl
  have h2 : fetchLoop .warn oraclePageThenEmpty 0 1 1 49 (some ⟨some [rowA], true⟩)
      [Ev.pageEv 1 1] =
      ⟨1, 2, 49, some ⟨some [rowA], true⟩, [Ev.pageEv 1 1, Ev.emptyPage],
        .noMoreData⟩ := by
    rw [fetchLoop, dif_pos (show (0 : Int) < 49 by norm_num)]
    rfl
  show (fetchLoop .warn oraclePageThenEmpty 0 0 0 100
      (some (enterSession none)) []).totalInserted = 1
  rw [h1, h2]

/-- C2, amended: `fetch_date_range` accumulates `total_inserted` as the sum
of the per-page inserted counts over all successfully processed pages (it
reports this total on stderr), but the function itself returns `None`. -/
theorem c2_total_inserted_accumulates_amended (action : ConflictAction)
    (oracle : Nat → FetchResp) (startDate endDate : Int) (sink : Option StoreState) :
    (fetch_date_range action oracle startDate endDate sink).2 = none ∧
    (fetch_date_range action oracle startDate endDate sink).1.totalInserted =
      pageInsertedSum (fetch_date_range action oracle startDate endDate sink).1.trace := by
  refine ⟨rfl, ?_⟩
  have h := fetchLoop_inserted_eq action oracle startDate 0 0 endDate sink []
  have hps : pageInsertedSum [] = 0 := rfl
  rw [hps] at h
  show (fetchLoop action oracle startDate 0 0 endDate sink []).totalInserted =
    pageInsertedSum (fetchLoop action oracle startDate 0 0 endDate sink []).trace
  omega

/-- C6: after a successful page with rows, the window end becomes the
oldest returned timestamp minus one second when that timestamp is older
than the current end, and otherwise steps back one minute; the window end
strictly decreases either way, and every run of the loop terminates — in
particular the total number of requests made is bounded by the width of
the requested window in seconds. -/
theorem c6_window_step_and_termination :
    (∀ (rows : List Row) (currentEnd : Int), ¬ rows = [] →
      (minTimestamp rows < currentEnd →
        nextWindowEnd rows currentEnd = minTimestamp rows - 1) ∧
      (¬ minTimestamp rows < currentEnd →
        nextWindowEnd rows currentEnd = currentEnd - 60) ∧
      nextWindowEnd rows currentEnd < currentEnd) ∧
    (∀ (action : ConflictAction) (oracle : Nat → FetchResp) (startDate endDate : Int)
        (sink : Option StoreState),
      (fetch_date_range action oracle startDate endDate sink).1.totalRequests ≤
        (endDate - startDate).toNat) := by
  constructor
  · intro rows cur hrows
    refine ⟨?_, ?_, nextWindowEnd_lt rows cur⟩
    · intro hlt
      rw [nextWindowEnd, if_neg (by omega)]
    · intro hge
      rw [nextWindowEnd, if_pos (by omega)]
  · intro action oracle startDate endDate sink
    have h := fetchLoop_requests_le action oracle startDate 0 0 endDate sink []
    show (fetchLoop action oracle startDate 0 0 endDate sink []).totalRequests ≤
      (endDate - startDate).toNat
    omega

/-- Witness for C6 at a concrete page and a concrete loop run. -/
theorem c6_window_step_and_termination_witness :
    ((minTimestamp [rowA] < 100 →
        nextWindowEnd [rowA] 100 = minTimestamp [rowA] - 1) ∧
      (¬ minTimestamp [rowA] < 100 → nextWindowEnd [rowA] 100 = 100 - 60) ∧
      nextWindowEnd [rowA] 100 < 100) ∧
    (fetch_date_range .warn oraclePageThenEmpty 0 100 none).1.totalRequests ≤
      ((100 : Int) - 0).toNat :=
  ⟨c6_window_step_and_termination.1 [rowA] 100 (by decide),
    c6_window_step_and_termination.2 .warn oraclePageThenEmpty 0 100 none⟩

/-- C7: when the endpoint returns a nonempty page on the first call and
HTTP 429 on the second, the loop (default `warn` policy) classifies the
run as rate-limited and stops at once: no retry (exactly 2 requests), no
exception (the outcome is `rateLimited`, not `raised`), and exactly one
successful page processed before stopping. -/
theorem c7_rate_limit_short_circuit (oracle : Nat → FetchResp)
    (startDate endDate : Int) (rows : List Row) (st0 : StoreState)
    (h0 : oracle 0 = .page rows) (hrows : ¬ rows = []) (h1 : oracle 1 = .rateLimit)
    (hse : startDate < endDate) (hnext : startDate < nextWindowEnd rows endDate) :
    (fetch_date_range .warn oracle startDate endDate (some st0)).1.outcome =
      .rateLimited ∧
    (fetch_date_range .warn oracle startDate endDate (some st0)).1.totalRequests = 2 ∧
    ∃ ins, (fetch_date_range .warn oracle startDate endDate (some st0)).1.trace =
      [.pageEv rows.length ins, .rl429] := by
  obtain ⟨ins, hres⟩ :=
    @insert_result_ok_of_ne_error ConflictAction.warn st0 rows (by rintro h; cases h)
  have hstep1 : fetchLoop .warn oracle startDate 0 0 endDate (some st0) [] =
      fetchLoop .warn oracle startDate (0 + ins) 1 (nextWindowEnd rows endDate)
        (some (insert_air_data .warn st0 rows).state) [Ev.pageEv rows.length ins] := by
    rw [fetchLoop, dif_pos hse, h0]
    simp only [if_neg hrows]
    rw [hres]
    rfl
  have hstep2 : fetchLoop .warn oracle startDate (0 + ins) 1 (nextWindowEnd rows endDate)
      (some (insert_air_data .warn st0 rows).state) [Ev.pageEv rows.length ins] =
      ⟨0 + ins, 2, nextWindowEnd rows endDate,
        some (insert_air_data .warn st0 rows).state,
        [Ev.pageEv rows.length ins, Ev.rl429], .rateLimited⟩ := by
    rw [fetchLoop, dif_pos hnext, h1]
    rfl
  have hfull := hstep1.trans hstep2
  refine ⟨?_, ?_, ins, ?_⟩
  · show (fetchLoop .warn oracle startDate 0 0 endDate (some st0) []).outcome =
      .rateLimited
    rw [hfull]
  · show (fetchLoop .warn oracle startDate 0 0 endDate (some st0) []).totalRequests = 2
    rw [hfull]
  · show (fetchLoop .warn oracle startDate 0 0 endDate (some st0) []).trace =
      [.pageEv rows.length ins, .rl429]
    rw [hfull]

/-- Witness for C7 against the simulated one-page-then-429 endpoint. -/
theorem c7_rate_limit_short_circuit_witness :
    (fetch_date_range .warn oraclePageThenLimit 0 100
        (some (enterSession none))).1.outcome = .rateLimited ∧
    (fetch_date_range .warn oraclePageThenLimit 0 100
        (some (enterSession none))).1.totalRequests = 2 ∧
    ∃ ins, (fetch_date_range .warn oraclePageThenLimit 0 100
        (some (enterSession none))).1.trace = [.pageEv [rowA].length ins, .rl429] :=
  c7_rate_limit_short_circuit oraclePageThenLimit 0 100 [rowA] (enterSession none)
    rfl (by decide) rfl (by norm_num) (by decide)

/-- C8: normalization pivots a payload record into a flat row keyed by the
canonical field set `FIELDS`: it succeeds exactly when every canonical
value component is present among the sensors (the timestamp key is always
seeded from the record, so only value fields can be absent), appending a
sensor component outside the canonical set never changes the result
(dropped), and on success the row carries the pivoted dict's values for
every canonical field — the timestamp is the record's own unless a sensor
with comp `'timestamp'` overwrote it, and each value field takes the last
occurrence of its component; a record missing a canonical value field
yields an error, never a silently truncated row. -/
theorem c8_normalization_pivot (d : Datum) (x : SensorReading)
    (hx : ¬ x.comp ∈ FIELDS) :
    ((normalizeDatum d).isOk =
      valFieldNames.all (fun k => d.sensors.any (fun s => s.comp = k))) ∧
    normalizeDatum ⟨d.timestamp, d.sensors ++ [x]⟩ = normalizeDatum d ∧
    (∀ row, normalizeDatum d = .ok row →
      row.timestamp = (lookupComp d.sensors "timestamp").getD d.timestamp ∧
        ∀ n ∈ valFieldNames, lookupComp d.sensors n = some (valField n row)) := by
  refine ⟨?_, ?_, fun row h => normalizeDatum_ok_values d row h⟩
  · rw [normalizeDatum_isOk_eq]
    simp only [valFieldNames, List.all_cons, List.all_nil, Bool.and_true]
    rw [lookupComp_isSome_any, lookupComp_isSome_any, lookupComp_isSome_any,
      lookupComp_isSome_any, lookupComp_isSome_any, lookupComp_isSome_any]
    simp [Bool.and_assoc]
  · have hne : ∀ k ∈ FIELDS, ¬ x.comp = k := fun k hk hc => hx (hc ▸ hk)
    have e0 := @lookupComp_append_ne d.sensors x "timestamp"
      (hne "timestamp" (by simp [FIELDS]))
    have e1 := @lookupComp_append_ne d.sensors x "temp"
      (hne "temp" (by simp [FIELDS, valFieldNames]))
    have e2 := @lookupComp_append_ne d.sensors x "co2"
      (hne "co2" (by simp [FIELDS, valFieldNames]))
    have e3 := @lookupComp_append_ne d.sensors x "pm10"
      (hne "pm10" (by simp [FIELDS, valFieldNames]))
    have e4 := @lookupComp_append_ne d.sensors x "pm25"
      (hne "pm25" (by simp [FIELDS, valFieldNames]))
    have e5 := @lookupComp_append_ne d.sensors x "humid"
      (hne "humid" (by simp [FIELDS, valFieldNames]))
    have e6 := @lookupComp_append_ne d.sensors x "voc"
      (hne "voc" (by simp [FIELDS, valFieldNames]))
    rw [normalizeDatum, normalizeDatum]
    simp only [e0, e1, e2, e3, e4, e5, e6]

/-- Witness for C8 at a complete record and a non-canonical extra sensor. -/
theorem c8_normalization_pivot_witness :
    ((normalizeDatum datumA).isOk =
      valFieldNames.all (fun k => datumA.sensors.any (fun s => s.comp = k))) ∧
    normalizeDatum ⟨datumA.timestamp, datumA.sensors ++ [extraSensor]⟩ =
      normalizeDatum datumA ∧
    (∀ row, normalizeDatum datumA = .ok row →
      row.timestamp = (lookupComp datumA.sensors "timestamp").getD datumA.timestamp ∧
        ∀ n ∈ valFieldNames, lookupComp datumA.sensors n = some (valField n row)) :=
  c8_normalization_pivot datumA extraSensor (by decide)

end Awair
